import Mathlib

/-!
Verification of the result ranking, tagging, deduplication and summary
pipeline of `src/server.js`.

The JavaScript functions `isRelevant`, `domainScore`, `extractTags`,
`dedupe`, `capitalize` and `localSummary`, together with the body of the
`GET /search` handler (here `rank`) and the `POST /refine` handler (here
`refine`), are embedded as executable Lean functions over `String` /
`List Char`.  Conventions of the embedding:

* JS `toQuery.toLowerCase()` is `lowerStr`, a per-character map covering
  ASCII letters and the Latin-1 accented capitals that can occur here.
* A JS regex `.test` of an alternation of literal words is a disjunction
  of substring checks (`hasSub`); the fragments `front\s*end` and
  `full\s*stack` use `hasWsPat` (`\s*` is a run of whitespace).
* JS `Set` objects used only via `has`/`add` are lists of strings queried
  with `hasStr`.
* `Array.prototype.sort` with comparator `(a,b) => b.score - a.score` is a
  stable descending sort by score; since the stable result is unique it is
  embedded as a stable insertion sort (`sortBy`).
* The two outbound HTTP calls are external collaborators: `rank` takes the
  already-fetched raw list as input, and `refine` takes the credential and
  the outcome of the text-generation call as explicit parameters.
* JS numbers produced here are small integers, embedded as `Int`.
-/

/-- JS `String.prototype.toLowerCase` on one character, restricted to ASCII
letters plus the Latin-1 accented capitals this code base can meet. -/
def lowerChar (c : Char) : Char :=
  if c = 'Á' then 'á' else if c = 'À' then 'à' else if c = 'Â' then 'â'
  else if c = 'Ã' then 'ã' else if c = 'Ä' then 'ä' else if c = 'Ç' then 'ç'
  else if c = 'É' then 'é' else if c = 'È' then 'è' else if c = 'Ê' then 'ê'
  else if c = 'Í' then 'í' else if c = 'Ì' then 'ì' else if c = 'Î' then 'î'
  else if c = 'Ó' then 'ó' else if c = 'Ò' then 'ò' else if c = 'Ô' then 'ô'
  else if c = 'Õ' then 'õ' else if c = 'Ú' then 'ú' else if c = 'Ù' then 'ù'
  else if c = 'Û' then 'û' else if c = 'Ü' then 'ü' else Char.toLower c

/-- JS `String.prototype.toLowerCase`. -/
def lowerStr (s : String) : String := String.mk (s.data.map lowerChar)

/-- Does the first list occur at the very start of the second one? -/
def beginsWith : List Char → List Char → Bool
  | [], _ => true
  | _ :: _, [] => false
  | a :: as, b :: bs => a == b && beginsWith as bs

/-- Does `q` accept some suffix of the list? -/
def scanSuffixes (q : List Char → Bool) : List Char → Bool
  | [] => q []
  | c :: cs => q (c :: cs) || scanSuffixes q cs

/-- JS `String.prototype.includes` / a regex made of one literal word:
`kw` occurs as a contiguous substring of `s`. -/
def hasSub (kw s : List Char) : Bool := scanSuffixes (fun suf => beginsWith kw suf) s

/-- `hasSub` on `String`s. -/
def hasSubS (kw s : String) : Bool := hasSub kw.data s.data

/-- The regex fragment `a\s*b` anchored at the current position: `a`, then a
run of whitespace, then `b`. -/
def matchWsAt (a b s : List Char) : Bool :=
  beginsWith a s &&
    beginsWith b (List.dropWhile Char.isWhitespace (List.drop a.length s))

/-- The regex fragment `a\s*b` somewhere in `s`. -/
def hasWsPat (a b s : List Char) : Bool := scanSuffixes (fun suf => matchWsAt a b suf) s

/-- JS `Set.prototype.has` on a list-modelled set of strings. -/
def hasStr (l : List String) (v : String) : Bool := l.any (fun x => x == v)

/-- `tags` object of an enriched result: `{ techs, cities }`. -/
structure Tags where
  techs : List String
  cities : List String
deriving DecidableEq

/-- A search result item.  Raw results from the providers carry
`title`, `description`, `url`; the pipeline fills in `tags` and `score`
(raw items are embedded with empty tags and score 0, which the pipeline
never reads). -/
structure Job where
  title : String
  description : String
  url : String
  tags : Tags
  score : Int
deriving DecidableEq

/-- The text `isRelevant` matches on: `` `${item.title} ${item.description}` ``
lowercased, as a character list. -/
def relevText (it : Job) : List Char := (lowerStr (it.title ++ " " ++ it.description)).data

/-- `hasIntern`: the regex `/(estágio|estagio|internship)/i` on the
lowercased text. -/
def hasIntern (t : List Char) : Bool :=
  hasSub "estágio".data t || hasSub "estagio".data t || hasSub "internship".data t

/-- `hasDev`: the development-keyword regex of `isRelevant` on the
lowercased text. -/
def hasDev (t : List Char) : Bool :=
  hasSub "desenvolvedor".data t || hasSub "desenvolvimento".data t ||
  hasSub "developer".data t || hasSub "programador".data t ||
  hasSub "software".data t || hasSub "backend".data t ||
  hasWsPat "front".data "end".data t || hasSub "frontend".data t ||
  hasWsPat "full".data "stack".data t || hasSub "qa".data t || hasSub "mobile".data t

/-- `isRelevant` from `src/server.js` (lines 13-18). -/
def isRelevant (it : Job) : Bool := hasIntern (relevText it) || hasDev (relevText it)

/-- The `boosts` list of `domainScore` (lines 23-35). -/
def boosts : List String :=
  ["linkedin.com/jobs", "indeed.com", "indeed.com.br", "gupy.io", "vagas.com.br",
   "trampos.co", "greenhouse.io", "lever.co", "workable.com", "jobvite.com",
   "empregos.com.br"]

/-- `domainScore` from `src/server.js` (lines 21-39): 3 for a boost domain,
else 0 for `duckduckgo.com`, else 1. -/
def domainScore (url : String) : Int :=
  if boosts.any (fun d => hasSubS d (lowerStr url)) then 3
  else if hasSubS "duckduckgo.com" (lowerStr url) then 0
  else 1

/-- The `techs` reference list of `extractTags` (lines 44-53). -/
def techsList : List String :=
  ["java", "javascript", "typescript", "node", "react", "next.js", "vue", "angular",
   "svelte", "python", "django", "flask", "fastapi", "c#", ".net", "asp.net",
   "entity framework", "ruby", "rails", "php", "laravel", "symfony", "go", "kotlin",
   "swift", "sql", "postgres", "mysql", "sqlite", "mongodb", "git", "docker",
   "kubernetes", "ci/cd", "aws", "azure", "gcp"]

/-- The `cities` reference list of `extractTags` (lines 54-58). -/
def citiesList : List String :=
  ["porto alegre", "caxias do sul", "são leopoldo", "novo hamburgo", "pelotas",
   "santa maria", "florianópolis", "joinville", "blumenau", "chapecó", "itajai",
   "curitiba", "londrina", "maringá", "ponta grossa"]

/-- `[...new Set(l)]`: drop later duplicates, keeping first occurrences. -/
def uniqGo (seen : List String) : List String → List String
  | [] => []
  | x :: xs => if hasStr seen x then uniqGo seen xs else x :: uniqGo (x :: seen) xs

/-- `[...new Set(l)]`. -/
def uniq (l : List String) : List String := uniqGo [] l

/-- `extractTags` from `src/server.js` (lines 42-62). -/
def extractTags (text : String) : Tags :=
  { techs := uniq (techsList.filter (fun x => hasSubS x (lowerStr text))),
    cities := uniq (citiesList.filter (fun x => hasSubS x (lowerStr text))) }

/-- The loop of `dedupe` (lines 69-79); `seenUrl`/`seenTitle` are the two
`Set`s.  An item is kept when its lowercased url is non-empty and unseen or
its lowercased title is non-empty and unseen; a kept item registers each of
its non-empty keys. -/
def dedupeGo (seenUrl seenTitle : List String) : List Job → List Job
  | [] => []
  | it :: rest =>
    if (lowerStr it.url != "" && !(hasStr seenUrl (lowerStr it.url))) ||
       (lowerStr it.title != "" && !(hasStr seenTitle (lowerStr it.title))) then
      it :: dedupeGo
        (if lowerStr it.url != "" then lowerStr it.url :: seenUrl else seenUrl)
        (if lowerStr it.title != "" then lowerStr it.title :: seenTitle else seenTitle)
        rest
    else dedupeGo seenUrl seenTitle rest

/-- `dedupe` from `src/server.js` (lines 65-81). -/
def dedupe (items : List Job) : List Job := dedupeGo [] [] items

/-- The tagging-and-scoring map of the narrow `/search` path (lines 163-167):
`{...it, tags, score: domainScore(url) + (techs?1:0) + (cities?1:0)}`. -/
def tagItem (it : Job) : Job :=
  let tags := extractTags (it.title ++ " " ++ it.description)
  { it with
    tags := tags,
    score := domainScore it.url + (if tags.techs.isEmpty then 0 else 1)
      + (if tags.cities.isEmpty then 0 else 1) }

/-- The filter `it => it.url && it.title` (lines 161 and 174): both strings
non-empty (JS truthiness on strings). -/
def goodItem (it : Job) : Bool := (it.url != "") && (it.title != "")

/-- The sort comparator `(a,b) => b.score - a.score` read as the relation
"may come first": `a` may precede `b` when `b.score ≤ a.score`. -/
def byScoreDesc (a b : Job) : Bool := decide (b.score ≤ a.score)

/-- One step of a stable insertion sort: insert `x` before the first element
it is allowed to precede. -/
def insertBy {α : Type} (ge : α → α → Bool) (x : α) : List α → List α
  | [] => [x]
  | y :: ys => if ge x y then x :: y :: ys else y :: insertBy ge x ys

/-- Stable sort (JS `Array.prototype.sort` is stable; the stable result is
unique, so insertion sort embeds it). -/
def sortBy {α : Type} (ge : α → α → Bool) (l : List α) : List α :=
  l.foldr (insertBy ge) []

/-- Lines 160-169 of the `/search` handler: filter to items with url and
title, filter by relevance, tag and score, dedupe, sort descending by
score. -/
def narrowItems (raw : List Job) : List Job :=
  sortBy byScoreDesc (dedupe (((raw.filter goodItem).filter
    (fun it => isRelevant it)).map tagItem))

/-- Lines 173-175: the fallback "informative" list, recomputed from the raw
list with only the url+title requirement; note its score is
`domainScore(it.url)` alone. -/
def informativeItems (raw : List Job) : List Job :=
  (raw.filter goodItem).map (fun it =>
    { it with
      tags := extractTags (it.title ++ " " ++ it.description),
      score := domainScore it.url })

/-- The result list of the `GET /search` handler (lines 160-180): the narrow
list, widened when it has fewer than 5 items by merging in the informative
list, re-deduping, re-sorting and capping at 12; the response is capped at
12 either way. -/
def rank (raw : List Job) : List Job :=
  (if (narrowItems raw).length < 5 then
    (sortBy byScoreDesc (dedupe (narrowItems raw ++ informativeItems raw))).take 12
  else narrowItems raw).take 12

/-- `\w` of JS regexes: `[A-Za-z0-9_]`. -/
def isWordChar (c : Char) : Bool := c.isAlphanum || c == '_'

/-- `capitalize` (line 84) character walk: uppercase each word character that
starts a `\b\w` match, i.e. is not preceded by a word character. -/
def capitalizeGo : Bool → List Char → List Char
  | _, [] => []
  | prevWord, c :: cs =>
    (if isWordChar c && !prevWord then c.toUpper else c) :: capitalizeGo (isWordChar c) cs

/-- `capitalize` from `src/server.js` (line 84):
`s.replace(/\b\w/g, c => c.toUpperCase())`. -/
def capitalize (s : String) : String := String.mk (capitalizeGo false s.data)

/-- One `techCount[t] = (techCount[t] || 0) + 1` step on the insertion-ordered
tally (JS object with non-numeric string keys preserves insertion order). -/
def bump (m : List (String × Nat)) (k : String) : List (String × Nat) :=
  match m with
  | [] => [(k, 1)]
  | (k2, v) :: rest => if k2 == k then (k2, v + 1) :: rest else (k2, v) :: bump rest k

/-- Tally every key of `keys` into `m`, in order. -/
def tallyInto (m : List (String × Nat)) (keys : List String) : List (String × Nat) :=
  keys.foldl bump m

/-- The tally comparator `(a,b) => b[1] - a[1]` as a "may come first"
relation. -/
def byCountDesc (a b : String × Nat) : Bool := decide (b.2 ≤ a.2)

/-- `localSummary` from `src/server.js` (lines 87-110).  The single JS loop
updates the tech and city tallies independently, so it is embedded as two
folds. -/
def localSummary (results : List Job) : String :=
  let techCount := results.foldl (fun m r => tallyInto m r.tags.techs) []
  let cityCount := results.foldl (fun m r => tallyInto m r.tags.cities) []
  let best := results.take 5
  let topTech := ((sortBy byCountDesc techCount).take 6).map
    (fun p => p.1 ++ " (" ++ toString p.2 ++ ")")
  let topCity := ((sortBy byCountDesc cityCount).take 5).map
    (fun p => capitalize p.1 ++ " (" ++ toString p.2 ++ ")")
  let l1 := if topTech.isEmpty then "Tecnologias mais citadas: não identificadas."
    else "Tecnologias mais citadas: " ++ String.intercalate ", " topTech ++ "."
  let l2 := if topCity.isEmpty then "Cidades em destaque: não identificadas."
    else "Cidades em destaque: " ++ String.intercalate ", " topCity ++ "."
  let bestLines := best.enum.map
    (fun p => toString (p.1 + 1) ++ ". " ++ p.2.title ++ " — " ++ p.2.url)
  String.intercalate "\n"
    ([l1, l2, "Top 5 oportunidades:"] ++ bestLines ++
     ["Requisitos comuns de estágio: conhecimentos básicos na stack citada, versionamento (Git), lógica de programação, bancos de dados, comunicação e trabalho em equipe.",
      "Dicas: mantenha projetos no GitHub e adapte o currículo às tecnologias exigidas."])

/-- Outcome of the outbound text-generation call of `POST /refine`: the
`fetch`/`json` pair throws, or it yields a body whose
`candidates[0].content.parts[0].text` is absent or is some string. -/
inductive CallOutcome where
  | failure : CallOutcome
  | success : Option String → CallOutcome
deriving DecidableEq

/-- Response of the `POST /refine` handler: a 400 `{erro}` or a 200
`{resumo}`. -/
inductive RefineResponse where
  | badRequest : String → RefineResponse
  | ok : String → RefineResponse
deriving DecidableEq

/-- The `POST /refine` handler (lines 188-238).  `apiKey = ""` embeds both an
unset and an empty `GEMINI_API_KEY` (both falsy in JS); a thrown outbound
call answers 200 with the local summary; an extracted text that is absent or
empty (falsy) also falls back to the local summary. -/
def refine (results : List Job) (apiKey : String) (call : CallOutcome) : RefineResponse :=
  if results.isEmpty then RefineResponse.badRequest "Sem resultados para refinar"
  else if apiKey == "" then RefineResponse.badRequest "Gemini API Key não configurada"
  else
    match call with
    | CallOutcome.failure => RefineResponse.ok (localSummary results)
    | CallOutcome.success none => RefineResponse.ok (localSummary results)
    | CallOutcome.success (some text) =>
      if text == "" then RefineResponse.ok (localSummary results)
      else RefineResponse.ok text

/-! ### Spec-side definitions

The definitions below follow the wording of the specification, for
comparison with the source-derived functions above. -/

/-- `kw` occurs as a contiguous substring (the spec's "contains"/"matches a
literal word of the pattern"), stated as an explicit decomposition. -/
def SubAt (kw t : List Char) : Prop := ∃ l r, t = l ++ kw ++ r

/-- `a`, optional internal whitespace, then `b` occurs in `t` (the spec's
"internal optional whitespace in compound terms"). -/
def WsAt (a b t : List Char) : Prop :=
  ∃ l m r, t = l ++ a ++ m ++ b ++ r ∧ m.all Char.isWhitespace = true

/-- The spec's internship-indicator pattern. -/
def InternSpec (t : List Char) : Prop :=
  SubAt "estágio".data t ∨ SubAt "estagio".data t ∨ SubAt "internship".data t

/-- The spec's development-keyword pattern, read with plain substring
containment. -/
def DevSpec (t : List Char) : Prop :=
  SubAt "desenvolvedor".data t ∨ SubAt "desenvolvimento".data t ∨
  SubAt "developer".data t ∨ SubAt "programador".data t ∨
  SubAt "software".data t ∨ SubAt "backend".data t ∨
  WsAt "front".data "end".data t ∨ SubAt "frontend".data t ∨
  WsAt "full".data "stack".data t ∨ SubAt "qa".data t ∨ SubAt "mobile".data t

/-- The lowercased url contains some boost-list domain. -/
def BoostHit (url : String) : Prop :=
  ∃ d, d ∈ boosts ∧ SubAt d.data (lowerStr url).data

/-- First character exists and is not whitespace (side condition under which
greedy whitespace skipping is exact). -/
def headNonWs : List Char → Bool
  | [] => false
  | c :: _ => !Char.isWhitespace c

/-- The lowercased non-empty urls of a list of already-kept items: the
"previously seen" urls in the spec's wording of `dedupe`. -/
def seenUrls (kept : List Job) : List String :=
  (kept.map (fun k => lowerStr k.url)).filter (fun u => u != "")

/-- The lowercased non-empty titles of a list of already-kept items. -/
def seenTitles (kept : List Job) : List String :=
  (kept.map (fun k => lowerStr k.title)).filter (fun t => t != "")

/-- `dedupe` as worded by the spec: walk the input in order, keep an item
when its lowercased url is non-empty and not the url of a previously kept
item, or its lowercased title is non-empty and not the title of a
previously kept item. -/
def dedupeSpecGo (kept : List Job) : List Job → List Job
  | [] => []
  | it :: rest =>
    if (lowerStr it.url != "" && !(hasStr (seenUrls kept) (lowerStr it.url))) ||
       (lowerStr it.title != "" && !(hasStr (seenTitles kept) (lowerStr it.title))) then
      it :: dedupeSpecGo (kept ++ [it]) rest
    else dedupeSpecGo kept rest

/-- `dedupe` as worded by the spec. -/
def dedupeSpec (items : List Job) : List Job := dedupeSpecGo [] items

/-- Word boundary on the left of a token: start of text or a preceding
non-word character. -/
def tokBoundary (prev : Option Char) : Bool :=
  match prev with
  | none => true
  | some c => !isWordChar c

/-- Word boundary on the right of a token: end of text or a following
non-word character. -/
def tokAfter (s : List Char) : Bool :=
  match s with
  | [] => true
  | c :: _ => !isWordChar c

/-- Modelled from the spec: claim C5 reads each development keyword "as a
case-insensitive token match (not as an arbitrary substring of a longer
word)", i.e. delimited by word boundaries; this checks `kw` at the current
position. -/
def tokAt (kw : List Char) (prev : Option Char) (s : List Char) : Bool :=
  beginsWith kw s && tokBoundary prev && tokAfter (List.drop kw.length s)

/-- Modelled from the spec: a compound keyword `a` + optional whitespace +
`b`, delimited by word boundaries, at the current position. -/
def tokWsAt (a b : List Char) (prev : Option Char) (s : List Char) : Bool :=
  tokBoundary prev && beginsWith a s &&
    (beginsWith b (List.dropWhile Char.isWhitespace (List.drop a.length s)) &&
     tokAfter (List.drop b.length (List.dropWhile Char.isWhitespace (List.drop a.length s))))

/-- Scan every position of the text, tracking the previous character. -/
def scanTok (q : Option Char → List Char → Bool) : Option Char → List Char → Bool
  | prev, [] => q prev []
  | prev, c :: cs => q prev (c :: cs) || scanTok q (some c) cs

/-- Modelled from the spec: `kw` occurs as a whole token somewhere. -/
def hasTok (kw t : List Char) : Bool := scanTok (fun p s => tokAt kw p s) none t

/-- Modelled from the spec: the compound token occurs somewhere. -/
def hasTokWs (a b t : List Char) : Bool := scanTok (fun p s => tokWsAt a b p s) none t

/-- Modelled from the spec: claim C5's reading of `hasDev`, with every
development keyword required to match as a whole token. -/
def devTok (t : List Char) : Bool :=
  hasTok "desenvolvedor".data t || hasTok "desenvolvimento".data t ||
  hasTok "developer".data t || hasTok "programador".data t ||
  hasTok "software".data t || hasTok "backend".data t ||
  hasTokWs "front".data "end".data t || hasTok "frontend".data t ||
  hasTokWs "full".data "stack".data t || hasTok "qa".data t || hasTok "mobile".data t

/-! ### Concrete items used by counterexamples and witnesses -/

/-- A minimal relevant item on a boost domain. -/
def jQa : Job := ⟨"qa", "", "gupy.io", ⟨[], []⟩, 0⟩

/-- `{url:"a", title:"x"}` of claim C2 (`description` absent in the spec's
input; `dedupe` never reads it). -/
def jDup1 : Job := ⟨"x", "", "a", ⟨[], []⟩, 0⟩

/-- `{url:"a", title:"y"}` of claim C2. -/
def jDup2 : Job := ⟨"y", "", "a", ⟨[], []⟩, 0⟩

/-- Relevant, no tags, neutral domain: narrow score 1. -/
def jShrinkA : Job := ⟨"qa a", "", "u1", ⟨[], []⟩, 0⟩

/-- Same url as `jShrinkA`, one tech tag: narrow score 2. -/
def jShrinkB : Job := ⟨"qa go", "", "u1", ⟨[], []⟩, 0⟩

/-- Same title as `jShrinkA`, boost domain: narrow score 3. -/
def jShrinkC : Job := ⟨"qa a", "", "gupy.io", ⟨[], []⟩, 0⟩

/-- Not relevant (no internship or dev keyword), but informative, with a
tech tag on a neutral domain. -/
def jInf : Job := ⟨"foo java", "", "https://example.com", ⟨[], []⟩, 0⟩

/-- The single item `rank [jInf]` returns: tagged, but scored
`domainScore` alone. -/
def jInfOut : Job := ⟨"foo java", "", "https://example.com", ⟨["java"], []⟩, 1⟩

/-- A title containing the keyword `qa` only inside the longer word
"Qatar". -/
def jQatar : Job := ⟨"Qatar", "", "", ⟨[], []⟩, 0⟩

/-- A url containing both a boost domain and the informational domain. -/
def bothUrl : String := "https://duckduckgo.com/?q=gupy.io"

/-! ### Characterisations of the matching primitives -/

theorem beginsWith_iff (p s : List Char) : beginsWith p s = true ↔ ∃ r, s = p ++ r := by
  induction p generalizing s with
  | nil =>
    constructor
    · intro _
      exact ⟨s, rfl⟩
    · intro _
      rfl
  | cons a as ih =>
    cases s with
    | nil =>
      constructor
      · intro h
        cases h
      · rintro ⟨r, h⟩
        cases h
    | cons b bs =>
      simp only [beginsWith, Bool.and_eq_true, beq_iff_eq, ih]
      constructor
      · rintro ⟨rfl, r, rfl⟩
        exact ⟨r, rfl⟩
      · rintro ⟨r, h⟩
        injection h with h1 h2
        exact ⟨h1.symm, r, h2⟩

theorem scanSuffixes_iff (q : List Char → Bool) (s : List Char) :
    scanSuffixes q s = true ↔ ∃ l r, s = l ++ r ∧ q r = true := by
  induction s with
  | nil =>
    constructor
    · intro h
      exact ⟨[], [], rfl, h⟩
    · rintro ⟨l, r, h, hq⟩
      rcases List.append_eq_nil.mp h.symm with ⟨rfl, rfl⟩
      exact hq
  | cons c cs ih =>
    simp only [scanSuffixes, Bool.or_eq_true, ih]
    constructor
    · rintro (h | ⟨l, r, heq, hq⟩)
      · exact ⟨[], c :: cs, rfl, h⟩
      · exact ⟨c :: l, r, by rw [List.cons_append, heq], hq⟩
    · rintro ⟨l, r, heq, hq⟩
      cases l with
      | nil =>
        left
        rw [List.nil_append] at heq
        rw [heq]
        exact hq
      | cons a l2 =>
        right
        injection heq with h1 h2
        exact ⟨l2, r, h2, hq⟩

theorem hasSub_iff (kw s : List Char) : hasSub kw s = true ↔ SubAt kw s := by
  unfold hasSub SubAt
  rw [scanSuffixes_iff]
  constructor
  · rintro ⟨l, r, rfl, hb⟩
    rcases (beginsWith_iff kw r).mp hb with ⟨r2, rfl⟩
    exact ⟨l, r2, by simp [List.append_assoc]⟩
  · rintro ⟨l, r, rfl⟩
    exact ⟨l, kw ++ r, by simp [List.append_assoc],
      (beginsWith_iff kw (kw ++ r)).mpr ⟨r, rfl⟩⟩

theorem all_takeWhile_self (p : Char → Bool) (l : List Char) :
    (l.takeWhile p).all p = true := by
  induction l with
  | nil => rfl
  | cons a l ih =>
    by_cases h : p a = true
    · simp [List.takeWhile_cons, h, ih]
    · simp [List.takeWhile_cons, h]

theorem dropWhile_all_append (p : Char → Bool) (m l : List Char)
    (hm : m.all p = true) : List.dropWhile p (m ++ l) = List.dropWhile p l := by
  induction m with
  | nil => rfl
  | cons a m ih =>
    simp only [List.all_cons, Bool.and_eq_true] at hm
    rw [List.cons_append, List.dropWhile_cons, if_pos hm.1]
    exact ih hm.2

theorem matchWsAt_iff (a b s : List Char) (hb : headNonWs b = true) :
    matchWsAt a b s = true ↔
      ∃ m r, s = a ++ m ++ b ++ r ∧ m.all Char.isWhitespace = true := by
  unfold matchWsAt
  rw [Bool.and_eq_true, beginsWith_iff]
  constructor
  · rintro ⟨⟨s2, rfl⟩, h2⟩
    rw [List.drop_left] at h2
    rcases (beginsWith_iff b _).mp h2 with ⟨r, hr⟩
    refine ⟨List.takeWhile Char.isWhitespace s2, r, ?_, all_takeWhile_self _ _⟩
    have hs2 : s2 = List.takeWhile Char.isWhitespace s2 ++ (b ++ r) := by
      rw [← hr, List.takeWhile_append_dropWhile]
    have h3 := congrArg (fun x => a ++ x) hs2
    simpa [List.append_assoc] using h3
  · rintro ⟨m, r, rfl, hm⟩
    refine ⟨⟨m ++ b ++ r, by simp [List.append_assoc]⟩, ?_⟩
    have hre : a ++ m ++ b ++ r = a ++ (m ++ (b ++ r)) := by
      simp [List.append_assoc]
    rw [hre, List.drop_left, dropWhile_all_append _ _ _ hm]
    cases b with
    | nil => simp [headNonWs] at hb
    | cons c bs =>
      have hc : Char.isWhitespace c = false := by
        simpa [headNonWs] using hb
      rw [List.cons_append, List.dropWhile_cons, if_neg (by simp [hc])]
      exact (beginsWith_iff _ _).mpr ⟨r, rfl⟩

theorem hasWsPat_iff (a b s : List Char) (hb : headNonWs b = true) :
    hasWsPat a b s = true ↔ WsAt a b s := by
  unfold hasWsPat WsAt
  rw [scanSuffixes_iff]
  constructor
  · rintro ⟨l, r, rfl, hm⟩
    rcases (matchWsAt_iff a b r hb).mp hm with ⟨m, r2, rfl, hall⟩
    exact ⟨l, m, r2, by simp [List.append_assoc], hall⟩
  · rintro ⟨l, m, r, rfl, hall⟩
    exact ⟨l, a ++ m ++ b ++ r, by simp [List.append_assoc],
      (matchWsAt_iff a b _ hb).mpr ⟨m, r, rfl, hall⟩⟩

/-! ### Claims C5 and C6: relevance filter and domain scorer -/

/-- Claim C5, counterexample: the claim reads each development keyword as a
token match, "not as an arbitrary substring of a longer word".  The item
titled "Qatar" matches no internship pattern and no development keyword as a
token, yet `isRelevant` accepts it: the regex finds "qa" as a plain
substring inside "qatar". -/
theorem isRelevant_token_reading_cex :
    isRelevant jQatar = true ∧ hasIntern (relevText jQatar) = false ∧
      devTok (relevText jQatar) = false := by decide

/-- Claim C5 (amended): `isRelevant` is true iff the lowercased
title-plus-description text contains the internship pattern or one of the
development keywords as a plain (case-insensitive) substring — including
substrings of longer words — with internal optional whitespace in the
compound terms `front end` and `full stack`. -/
theorem isRelevant_iff_contains (it : Job) :
    isRelevant it = true ↔ InternSpec (relevText it) ∨ DevSpec (relevText it) := by
  have he : headNonWs "end".data = true := by decide
  have hs : headNonWs "stack".data = true := by decide
  unfold isRelevant hasIntern hasDev InternSpec DevSpec
  simp only [Bool.or_eq_true, hasSub_iff,
    hasWsPat_iff "front".data "end".data (relevText it) he,
    hasWsPat_iff "full".data "stack".data (relevText it) hs]
  tauto

/-- `boosts.some(d => u.includes(d))` holds exactly when some boost domain
occurs in the lowercased url. -/
theorem boost_any_iff (u : String) :
    (boosts.any (fun d => hasSubS d (lowerStr u))) = true ↔ BoostHit u := by
  rw [List.any_eq_true]
  unfold BoostHit hasSubS
  constructor
  · rintro ⟨d, hd, hsub⟩
    exact ⟨d, hd, (hasSub_iff _ _).mp hsub⟩
  · rintro ⟨d, hd, hsub⟩
    exact ⟨d, hd, (hasSub_iff _ _).mpr hsub⟩

/-- Claim C6, counterexample: the claim demands score exactly 0 for every
url containing the informational-search substring, but a url containing
both "duckduckgo.com" and a boost domain scores 3 — the boost check runs
first. -/
theorem domainScore_both_domains_cex :
    domainScore bothUrl = 3 ∧ hasSubS "duckduckgo.com" (lowerStr bothUrl) = true ∧
      (3 : Int) ≠ 0 := by decide

/-- Claim C6 (amended): `domainScore` returns 3 iff the lowercased url
contains a boost-list substring; 0 iff it contains "duckduckgo.com" and no
boost substring; 1 iff it contains neither. -/
theorem domainScore_cases (url : String) :
    (domainScore url = 3 ↔ BoostHit url) ∧
    (domainScore url = 0 ↔
      ¬BoostHit url ∧ SubAt "duckduckgo.com".data (lowerStr url).data) ∧
    (domainScore url = 1 ↔
      ¬BoostHit url ∧ ¬SubAt "duckduckgo.com".data (lowerStr url).data) := by
  have hb := boost_any_iff url
  unfold domainScore
  by_cases h1 : (boosts.any (fun d => hasSubS d (lowerStr url))) = true
  · rw [if_pos h1]
    have hB : BoostHit url := hb.mp h1
    exact ⟨⟨fun _ => hB, fun _ => rfl⟩,
           ⟨fun h => absurd h (by norm_num), fun h => absurd hB h.1⟩,
           ⟨fun h => absurd h (by norm_num), fun h => absurd hB h.1⟩⟩
  · rw [if_neg h1]
    have hnB : ¬BoostHit url := fun hB => h1 (hb.mpr hB)
    by_cases h2 : hasSubS "duckduckgo.com" (lowerStr url) = true
    · rw [if_pos h2]
      have hD : SubAt "duckduckgo.com".data (lowerStr url).data := by
        unfold hasSubS at h2
        exact (hasSub_iff _ _).mp h2
      exact ⟨⟨fun h => absurd h (by norm_num), fun hB => absurd hB hnB⟩,
             ⟨fun _ => ⟨hnB, hD⟩, fun _ => rfl⟩,
             ⟨fun h => absurd h (by norm_num), fun h => absurd hD h.2⟩⟩
    · rw [if_neg h2]
      have hnD : ¬SubAt "duckduckgo.com".data (lowerStr url).data := by
        intro hD
        exact h2 (by unfold hasSubS; exact (hasSub_iff _ _).mpr hD)
      exact ⟨⟨fun h => absurd h (by norm_num), fun hB => absurd hB hnB⟩,
             ⟨fun h => absurd h (by norm_num), fun h => absurd h.2 hnD⟩,
             ⟨fun _ => ⟨hnB, hnD⟩, fun _ => rfl⟩⟩

/-! ### Claims C1, C2, C8: the deduplicator -/

theorem lowerStr_empty : lowerStr "" = "" := by decide

theorem hasStr_cons (a : String) (l : List String) (v : String) :
    hasStr (a :: l) v = ((a == v) || hasStr l v) := by
  simp [hasStr]

theorem hasStr_append (l1 l2 : List String) (v : String) :
    hasStr (l1 ++ l2) v = (hasStr l1 v || hasStr l2 v) := by
  simp [hasStr, List.any_append]

theorem seenUrls_append_single (kept : List Job) (it : Job) :
    seenUrls (kept ++ [it]) =
      seenUrls kept ++ (if lowerStr it.url != "" then [lowerStr it.url] else []) := by
  unfold seenUrls
  rw [List.map_append, List.filter_append]
  congr 1
  simp only [List.map_cons, List.map_nil, List.filter_cons, List.filter_nil]

theorem seenTitles_append_single (kept : List Job) (it : Job) :
    seenTitles (kept ++ [it]) =
      seenTitles kept ++ (if lowerStr it.title != "" then [lowerStr it.title] else []) := by
  unfold seenTitles
  rw [List.map_append, List.filter_append]
  congr 1
  simp only [List.map_cons, List.map_nil, List.filter_cons, List.filter_nil]

/-- Registering a key into a set equals appending it to the list of keys of
kept items, as far as `hasStr` can see. -/
theorem hasStr_register (x : String) (sU base : List String)
    (H : ∀ v, hasStr sU v = hasStr base v) (v : String) :
    hasStr (if x != "" then x :: sU else sU) v =
      hasStr (base ++ (if x != "" then [x] else [])) v := by
  rw [hasStr_append]
  by_cases hx : (x != "") = true
  · rw [if_pos hx, if_pos hx, hasStr_cons, H v]
    have h1 : hasStr [x] v = (x == v) := by simp [hasStr]
    rw [h1, Bool.or_comm]
  · rw [if_neg hx, if_neg hx, H v]
    have h1 : hasStr ([] : List String) v = false := by simp [hasStr]
    rw [h1, Bool.or_false]

/-- The loop of `dedupe`, started from set states that agree with the keys
of some list of already-kept items, behaves like the spec's formulation
over kept items. -/
theorem dedupeGo_eq_specGo (items : List Job) :
    ∀ (kept : List Job) (sU sT : List String),
      (∀ v, hasStr sU v = hasStr (seenUrls kept) v) →
      (∀ v, hasStr sT v = hasStr (seenTitles kept) v) →
      dedupeGo sU sT items = dedupeSpecGo kept items := by
  induction items with
  | nil =>
    intro kept sU sT _ _
    rfl
  | cons it rest ih =>
    intro kept sU sT HU HT
    simp only [dedupeGo, dedupeSpecGo]
    rw [HU (lowerStr it.url), HT (lowerStr it.title)]
    by_cases hc : ((lowerStr it.url != "" && !(hasStr (seenUrls kept) (lowerStr it.url))) ||
        (lowerStr it.title != "" && !(hasStr (seenTitles kept) (lowerStr it.title)))) = true
    · rw [if_pos hc, if_pos hc]
      congr 1
      apply ih
      · intro v
        rw [seenUrls_append_single]
        exact hasStr_register _ _ _ HU v
      · intro v
        rw [seenTitles_append_single]
        exact hasStr_register _ _ _ HT v
    · rw [if_neg hc, if_neg hc]
      exact ih kept sU sT HU HT

theorem dedupeGo_sublist (items : List Job) :
    ∀ sU sT, List.Sublist (dedupeGo sU sT items) items := by
  induction items with
  | nil =>
    intro sU sT
    exact List.Sublist.refl []
  | cons it rest ih =>
    intro sU sT
    simp only [dedupeGo]
    by_cases hc : ((lowerStr it.url != "" && !(hasStr sU (lowerStr it.url))) ||
        (lowerStr it.title != "" && !(hasStr sT (lowerStr it.title)))) = true
    · rw [if_pos hc]
      exact List.Sublist.cons₂ it (ih _ _)
    · rw [if_neg hc]
      exact List.Sublist.cons it (ih _ _)

/-- Every item `dedupe` keeps has a non-empty url or a non-empty title. -/
theorem dedupeGo_keys (items : List Job) :
    ∀ sU sT,
      (dedupeGo sU sT items).all (fun it => (it.url != "") || (it.title != "")) = true := by
  induction items with
  | nil =>
    intro sU sT
    rfl
  | cons it rest ih =>
    intro sU sT
    simp only [dedupeGo]
    by_cases hc : ((lowerStr it.url != "" && !(hasStr sU (lowerStr it.url))) ||
        (lowerStr it.title != "" && !(hasStr sT (lowerStr it.title)))) = true
    · rw [if_pos hc]
      have hk : ((it.url != "") || (it.title != "")) = true := by
        simp only [Bool.or_eq_true, Bool.and_eq_true, bne_iff_ne] at hc
        simp only [Bool.or_eq_true, bne_iff_ne]
        rcases hc with ⟨h1, _⟩ | ⟨h1, _⟩
        · left
          intro he
          exact h1 (by rw [he]; exact lowerStr_empty)
        · right
          intro he
          exact h1 (by rw [he]; exact lowerStr_empty)
      simp only [List.all_cons, hk, Bool.true_and]
      exact ih _ _
    · rw [if_neg hc]
      exact ih _ _

/-- Claim C1: for every input sequence, `dedupe` keeps an item iff its
lowercased url is non-empty and not among the urls of previously kept
items, or its lowercased title is non-empty and not among their titles
(`dedupe = dedupeSpec`, with `dedupeSpec` written from the claim's
wording); the kept items form a sublist of the input (order of first
occurrence preserved), and no kept item has both keys empty. -/
theorem dedupe_keeps_iff_fresh_key (items : List Job) :
    dedupe items = dedupeSpec items ∧
    List.Sublist (dedupe items) items ∧
    (dedupe items).all (fun it => (it.url != "") || (it.title != "")) = true := by
  refine ⟨?_, dedupeGo_sublist items [] [], dedupeGo_keys items [] []⟩
  exact dedupeGo_eq_specGo items [] [] [] (fun v => rfl) (fun v => rfl)

/-- Claim C2, counterexample: on `[{url:"a",title:"x"},{url:"a",title:"y"}]`
`dedupe` keeps BOTH items — the second one's title "y" is new, and the keep
condition is an inclusive or — so the output is not `[first]` as claimed. -/
theorem dedupe_url_dup_cex :
    dedupe [jDup1, jDup2] = [jDup1, jDup2] ∧ dedupe [jDup1, jDup2] ≠ [jDup1] := by decide

/-- Claim C2 (amended): on `[{url:"a",title:"x"},{url:"a",title:"y"}]`
`dedupe` returns both items: the second is kept because its lowercased
title is non-empty and new, even though its url duplicates the first's. -/
theorem dedupe_url_dup_title_new_kept :
    dedupe [jDup1, jDup2] = [jDup1, jDup2] := by decide

/-- Rerunning the `dedupe` loop from the same start states on its own output
keeps everything: each kept item faces exactly the seen-sets it already
passed. -/
theorem dedupeGo_idem (items : List Job) :
    ∀ sU sT, dedupeGo sU sT (dedupeGo sU sT items) = dedupeGo sU sT items := by
  induction items with
  | nil =>
    intro sU sT
    rfl
  | cons it rest ih =>
    intro sU sT
    simp only [dedupeGo]
    by_cases hc : ((lowerStr it.url != "" && !(hasStr sU (lowerStr it.url))) ||
        (lowerStr it.title != "" && !(hasStr sT (lowerStr it.title)))) = true
    · rw [if_pos hc]
      simp only [dedupeGo]
      rw [if_pos hc, ih]
    · rw [if_neg hc]
      exact ih sU sT

/-- Claim C8: `dedupe` is idempotent. -/
theorem dedupe_idempotent (items : List Job) : dedupe (dedupe items) = dedupe items :=
  dedupeGo_idem items [] []

/-! ### Membership lemmas for the pipeline -/

theorem mem_insertBy {α : Type} (ge : α → α → Bool) (x y : α) (l : List α)
    (h : x ∈ insertBy ge y l) : x = y ∨ x ∈ l := by
  induction l with
  | nil =>
    simp only [insertBy, List.mem_singleton] at h
    exact Or.inl h
  | cons z zs ih =>
    simp only [insertBy] at h
    by_cases hg : (ge y z) = true
    · rw [if_pos hg] at h
      rcases List.mem_cons.mp h with h | h
      · exact Or.inl h
      · exact Or.inr h
    · rw [if_neg hg] at h
      rcases List.mem_cons.mp h with h | h
      · right
        exact List.mem_cons.mpr (Or.inl h)
      · rcases ih h with h | h
        · exact Or.inl h
        · right
          exact List.mem_cons.mpr (Or.inr h)

theorem mem_sortBy {α : Type} (ge : α → α → Bool) (x : α) (l : List α)
    (h : x ∈ sortBy ge l) : x ∈ l := by
  induction l with
  | nil => simp [sortBy] at h
  | cons a l ih =>
    have h2 : x ∈ insertBy ge a (sortBy ge l) := h
    rcases mem_insertBy ge x a _ h2 with h3 | h3
    · exact List.mem_cons.mpr (Or.inl h3)
    · exact List.mem_cons.mpr (Or.inr (ih h3))

theorem mem_dedupe_sub (x : Job) (l : List Job) (h : x ∈ dedupe l) : x ∈ l :=
  (dedupeGo_sublist l [] []).subset h

theorem domainScore_nonneg_le (u : String) : 0 ≤ domainScore u ∧ domainScore u ≤ 3 := by
  unfold domainScore
  constructor
  · split
    · norm_num
    · split
      · norm_num
      · norm_num
  · split
    · norm_num
    · split
      · norm_num
      · norm_num

theorem tagItem_score_eq (j : Job) :
    (tagItem j).score = domainScore j.url
      + (if (extractTags (j.title ++ " " ++ j.description)).techs.isEmpty then 0 else 1)
      + (if (extractTags (j.title ++ " " ++ j.description)).cities.isEmpty then 0 else 1) := rfl

theorem tagItem_score_bound (j : Job) : 0 ≤ (tagItem j).score ∧ (tagItem j).score ≤ 5 := by
  obtain ⟨h1, h2⟩ := domainScore_nonneg_le j.url
  constructor
  · rw [tagItem_score_eq]
    split <;> split <;> omega
  · rw [tagItem_score_eq]
    split <;> split <;> omega

theorem mem_narrowItems (raw : List Job) (x : Job) (hx : x ∈ narrowItems raw) :
    ∃ j, goodItem j = true ∧ isRelevant j = true ∧ x = tagItem j := by
  unfold narrowItems at hx
  have h1 := mem_sortBy _ _ _ hx
  have h2 := mem_dedupe_sub _ _ h1
  rcases List.mem_map.mp h2 with ⟨j, hj, rfl⟩
  rcases List.mem_filter.mp hj with ⟨hj2, hrel⟩
  rcases List.mem_filter.mp hj2 with ⟨_, hgood⟩
  exact ⟨j, hgood, hrel, rfl⟩

theorem mem_informativeItems (raw : List Job) (x : Job) (hx : x ∈ informativeItems raw) :
    x.score = domainScore x.url ∧
    x.tags = extractTags (x.title ++ " " ++ x.description) ∧
    goodItem x = true := by
  unfold informativeItems at hx
  rcases List.mem_map.mp hx with ⟨j, hj, rfl⟩
  rcases List.mem_filter.mp hj with ⟨_, hgood⟩
  exact ⟨rfl, rfl, hgood⟩

theorem mem_rank_cases (raw : List Job) (x : Job) (hx : x ∈ rank raw) :
    x ∈ narrowItems raw ∨ x ∈ informativeItems raw := by
  unfold rank at hx
  have hx2 := List.take_subset _ _ hx
  by_cases h : (narrowItems raw).length < 5
  · rw [if_pos h] at hx2
    have hx3 := List.take_subset _ _ hx2
    have hx4 := mem_sortBy _ _ _ hx3
    have hx5 := mem_dedupe_sub _ _ hx4
    exact List.mem_append.mp hx5
  · rw [if_neg h] at hx2
    exact Or.inl hx2

theorem goodItem_fields (j : Job) (h : goodItem j = true) : j.title ≠ "" ∧ j.url ≠ "" := by
  simp only [goodItem, Bool.and_eq_true, bne_iff_ne] at h
  exact ⟨h.2, h.1⟩

/-! ### Claims C3, C4, C7, C10: the ranking pipeline -/

/-- Claim C3, counterexample: three relevant items where, after the
score-descending re-sort, the fallback merge re-dedupes and drops an item
whose url and title were (separately) registered by two higher-scoring
items; the widened response then has FEWER entries (2) than the
narrowly-filtered list (3), refuting both "more entries than" and "never
fewer entries than". -/
theorem rank_fallback_shrinks_cex :
    (narrowItems [jShrinkA, jShrinkB, jShrinkC]).length < 5 ∧
    (rank [jShrinkA, jShrinkB, jShrinkC]).length <
      (narrowItems [jShrinkA, jShrinkB, jShrinkC]).length := by decide

/-- Claim C3 (amended): when fewer than 5 items survive the narrow path,
the pipeline takes the fallback-widening branch (merge with the informative
list, re-dedupe, re-sort, cap) and the returned list has at most 12
entries; no comparison with the narrow count is guaranteed in either
direction. -/
theorem rank_fallback_cap (raw : List Job) (h : (narrowItems raw).length < 5) :
    rank raw =
      (sortBy byScoreDesc (dedupe (narrowItems raw ++ informativeItems raw))).take 12 ∧
    (rank raw).length ≤ 12 := by
  constructor
  · unfold rank
    rw [if_pos h, List.take_take, min_self]
  · unfold rank
    rw [if_pos h]
    exact List.length_take_le _ _

/-- Witness for `rank_fallback_cap` at the empty raw list. -/
theorem rank_fallback_cap_witness : (rank ([] : List Job)).length ≤ 12 :=
  (rank_fallback_cap [] (by decide)).2

/-- Claim C4, counterexample: `rank [jInf]` goes through the fallback, and
its single informative item has `score = domainScore(url) = 1` even though
its techs are non-empty — the claimed rule `domainScore + 1` would give 2.
The fallback scoring is NOT the same rule as the narrow path's. -/
theorem informative_bonus_cex :
    rank [jInf] = [jInfOut] ∧
    jInfOut.score ≠ domainScore jInfOut.url
      + (if jInfOut.tags.techs.isEmpty then 0 else 1)
      + (if jInfOut.tags.cities.isEmpty then 0 else 1) := by decide

/-- Claim C4 (amended): every recomputed informative item is tagged with
`extractTags` of its title and description, but its score is
`domainScore(url)` alone — the tech/city bonuses of the relevance-filtered
path are not added. -/
theorem informative_score_domain_only (raw : List Job) (x : Job)
    (hx : x ∈ informativeItems raw) :
    x.score = domainScore x.url ∧
    x.tags = extractTags (x.title ++ " " ++ x.description) := by
  have h := mem_informativeItems raw x hx
  exact ⟨h.1, h.2.1⟩

/-- Witness for `informative_score_domain_only`. -/
theorem informative_score_domain_only_witness :
    jInfOut.score = domainScore jInfOut.url :=
  (informative_score_domain_only [jInf] jInfOut (by decide)).1

/-- Claim C7: every item returned by the pipeline — through the narrow path
or the widened fallback path — has an integer score in [0, 5]. -/
theorem rank_score_in_range (raw : List Job) (x : Job) (hx : x ∈ rank raw) :
    0 ≤ x.score ∧ x.score ≤ 5 := by
  rcases mem_rank_cases raw x hx with h | h
  · rcases mem_narrowItems raw x h with ⟨j, _, _, rfl⟩
    exact tagItem_score_bound j
  · rcases mem_informativeItems raw x h with ⟨hs, _, _⟩
    rw [hs]
    have h2 := domainScore_nonneg_le x.url
    exact ⟨h2.1, le_trans h2.2 (by norm_num)⟩

/-- Witness for `rank_score_in_range`. -/
theorem rank_score_in_range_witness :
    0 ≤ (tagItem jQa).score ∧ (tagItem jQa).score ≤ 5 :=
  rank_score_in_range [jQa] (tagItem jQa) (by decide)

/-- Claim C10: every item returned by the pipeline — on either path — has a
non-empty title and a non-empty url. -/
theorem rank_items_have_title_url (raw : List Job) (x : Job) (hx : x ∈ rank raw) :
    x.title ≠ "" ∧ x.url ≠ "" := by
  rcases mem_rank_cases raw x hx with h | h
  · rcases mem_narrowItems raw x h with ⟨j, hgood, _, rfl⟩
    exact goodItem_fields j hgood
  · rcases mem_informativeItems raw x h with ⟨_, _, hgood⟩
    exact goodItem_fields x hgood

/-- Witness for `rank_items_have_title_url`. -/
theorem rank_items_have_title_url_witness :
    (tagItem jQa).title ≠ "" ∧ (tagItem jQa).url ≠ "" :=
  rank_items_have_title_url [jQa] (tagItem jQa) (by decide)

/-! ### Claim C9: the refine fallback -/

/-- Claim C9, counterexample: with the credential absent, `refine` answers a
400 error — it does NOT fall back to the Local Summarizer's output as the
claim states for the credential-absent case. -/
theorem refine_missing_key_cex :
    refine [jQa] "" CallOutcome.failure =
      RefineResponse.badRequest "Gemini API Key não configurada" ∧
    refine [jQa] "" CallOutcome.failure ≠ RefineResponse.ok (localSummary [jQa]) := by
  decide

/-- Claim C9 (amended): for a non-empty results list, an absent credential
makes `refine` answer the 400 error response, while with a credential
present a failing outbound call — or one yielding no text or empty text —
makes it answer 200 with the Local Summarizer's output. -/
theorem refine_key_and_fallback (results : List Job) (key : String) (call : CallOutcome)
    (hres : results ≠ []) :
    (key = "" → refine results key call =
        RefineResponse.badRequest "Gemini API Key não configurada") ∧
    (key ≠ "" →
      (call = CallOutcome.failure ∨ call = CallOutcome.success none ∨
        call = CallOutcome.success (some "")) →
      refine results key call = RefineResponse.ok (localSummary results)) := by
  have hne : results.isEmpty = false := by
    cases results with
    | nil => exact absurd rfl hres
    | cons a l => rfl
  constructor
  · intro hk
    subst hk
    unfold refine
    rw [if_neg (by simp [hne]), if_pos (by rfl)]
  · intro hk hcall
    unfold refine
    rw [if_neg (by simp [hne]), if_neg (by simp [hk])]
    rcases hcall with rfl | rfl | rfl
    · rfl
    · rfl
    · rfl

/-- Witness for `refine_key_and_fallback`, at both an absent and a present
credential. -/
theorem refine_key_and_fallback_witness :
    refine [jQa] "" CallOutcome.failure =
      RefineResponse.badRequest "Gemini API Key não configurada" ∧
    refine [jQa] "k" CallOutcome.failure = RefineResponse.ok (localSummary [jQa]) :=
  ⟨(refine_key_and_fallback [jQa] "" CallOutcome.failure (by decide)).1 rfl,
   (refine_key_and_fallback [jQa] "k" CallOutcome.failure (by decide)).2 (by decide)
     (Or.inl rfl)⟩
